import Mathlib

/-!
Verification development for the `gemini_code_reviewer` repository.

The TypeScript sources are shallowly embedded:
* `githubService` (URL parsing, file-tree fetching, file selection, raw-content
  download) becomes pure Lean functions over an explicit environment
  (`GitHubEnv`) that records what each HTTP endpoint would answer; every
  network interaction and progress callback is logged in an event trace.
* `geminiService` (prompt building and generation calls) is embedded the same
  way over `GenEnv`.
* JavaScript string primitives used by the sources (`includes`, `startsWith`,
  `endsWith`, `split`, first-occurrence `replace`, `indexOf`,
  `localeCompare`) are modelled over `List Char`.  `localeCompare` is
  modelled as code-point lexicographic comparison (its behaviour absent ICU
  locale data); the `$`-escape sequences of `String.prototype.replace` are
  not modelled (no replacement string in the sources uses them).
* `Array.prototype.sort`, specified to be a stable comparison sort, is
  modelled as insertion sort over the comparator's non-strict order.
-/

namespace GCR

/-- `CodeFile` from `githubService`: a repo-relative path and raw content. -/
structure CodeFile where
  path : String
  content : String
deriving DecidableEq, Repr

/-- `RepoAnalysisData` from `githubService`. -/
structure RepoAnalysisData where
  structuralFiles : List CodeFile
  codeFiles : List CodeFile
deriving DecidableEq, Repr

/-- An entry of the list handed to `selectFilesForAnalysis` (`{ path: string }`). -/
structure FileMeta where
  path : String
deriving DecidableEq, Repr

/-- The record returned by `selectFilesForAnalysis`. -/
structure Selection where
  structural : List String
  code : List String
deriving DecidableEq, Repr

-- ### JavaScript string primitives, modelled over `List Char`

/-- Does `pat` occur as a contiguous subsequence of the character list? -/
def containsSubAux (pat : List Char) : List Char → Bool
  | [] => pat.isEmpty
  | c :: cs => pat.isPrefixOf (c :: cs) || containsSubAux pat cs

/-- JavaScript `s.includes(pat)`. -/
def jsIncludes (s pat : String) : Bool :=
  containsSubAux pat.data s.data

/-- JavaScript `s.startsWith(pre)`. -/
def jsStartsWith (s pre : String) : Bool :=
  pre.data.isPrefixOf s.data

/-- JavaScript `s.endsWith(suf)`. -/
def jsEndsWith (s suf : String) : Bool :=
  suf.data.reverse.isPrefixOf s.data.reverse

/-- Splitting a character list at a separator character; the accumulator holds
the current (reversed) chunk.  Mirrors JavaScript `String.prototype.split`
with a one-character separator: `"" ↦ [""]`, separators at the ends produce
empty chunks. -/
def splitCharAux (sep : Char) (acc : List Char) : List Char → List (List Char)
  | [] => [acc.reverse]
  | c :: cs =>
    if c = sep then acc.reverse :: splitCharAux sep [] cs
    else splitCharAux sep (c :: acc) cs

/-- JavaScript `s.split('/')`. -/
def jsSplitSlash (s : String) : List String :=
  (splitCharAux '/' [] s.data).map (fun l => ⟨l⟩)

/-- First-occurrence replacement over character lists. -/
def jsReplaceAux (pat repl : List Char) : List Char → List Char
  | [] => if pat.isEmpty then repl else []
  | c :: cs =>
    if pat.isPrefixOf (c :: cs) then repl ++ (c :: cs).drop pat.length
    else c :: jsReplaceAux pat repl cs

/-- JavaScript `s.replace(pat, repl)` with a plain-string pattern: replaces the
first occurrence only.  (`$`-escape processing of the replacement is not
modelled; no replacement in the embedded sources contains `$`.) -/
def jsReplace (s pat repl : String) : String :=
  ⟨jsReplaceAux pat.data repl.data s.data⟩

/-- Three-way code-point comparison of character lists, with values in
`{-1, 0, 1}`. -/
def lexCmp : List Char → List Char → Int
  | [], [] => 0
  | [], _ :: _ => -1
  | _ :: _, [] => 1
  | a :: as, b :: bs =>
    if a.toNat < b.toNat then -1
    else if b.toNat < a.toNat then 1
    else lexCmp as bs

/-- JavaScript `a.localeCompare(b)`, modelled as code-point lexicographic
comparison. -/
def localeCompare (a b : String) : Int :=
  lexCmp a.data b.data

/-- JavaScript `Array.prototype.indexOf`: index of the first occurrence,
`-1` when absent. -/
def jsIndexOfAux (s : String) : List String → Int
  | [] => -1
  | x :: xs =>
    if x = s then 0
    else
      let r := jsIndexOfAux s xs
      if r = -1 then -1 else r + 1

/-- `l.indexOf(s)` for a string array. -/
def jsIndexOf (l : List String) (s : String) : Int :=
  jsIndexOfAux s l

-- ### File selection (`githubService`)

/-- `STRUCTURAL_FILE_PATTERNS` from `githubService`. -/
def STRUCTURAL_FILE_PATTERNS : List String :=
  ["package.json", "tsconfig.json", "vite.config.ts", "webpack.config.js",
   "pom.xml", "build.gradle", "pyproject.toml", "requirements.txt",
   "composer.json", "Gemfile", "go.mod", "Cargo.toml", ".eslintrc.json"]

/-- `CODE_FILE_PRIORITY` from `githubService`. -/
def CODE_FILE_PRIORITY : List String :=
  ["src/main.ts", "src/main.js", "src/index.ts", "src/index.js",
   "src/App.tsx", "src/App.jsx", "src/app.py", "src/main.py",
   "src/server.js", "src/server.ts", "lib/main.dart"]

/-- The `codeExtensions` local of `isCodeFile`. -/
def codeExtensions : List String :=
  [".js", ".ts", ".jsx", ".tsx", ".py", ".java", ".go", ".rs", ".rb",
   ".php", ".html", ".css"]

/-- The `nonCodeDirs` local of `isCodeFile`. -/
def nonCodeDirs : List String :=
  ["node_modules", "dist", "build", "docs", "test", "tests", "assets",
   "public", ".github", ".vscode"]

/-- `isCodeFile` from `githubService`. -/
def isCodeFile (path : String) : Bool :=
  if nonCodeDirs.any (fun dir => jsIncludes path ("/" ++ dir ++ "/")) ||
     nonCodeDirs.any (fun dir => jsStartsWith path (dir ++ "/")) then
    false
  else
    codeExtensions.any (fun ext => jsEndsWith path ext)

/-- The comparator passed to `code.sort` in `selectFilesForAnalysis`
(negative: `a` first; positive: `b` first). -/
def codeCompare (a b : String) : Int :=
  let aPrio := jsIndexOf CODE_FILE_PRIORITY a
  let bPrio := jsIndexOf CODE_FILE_PRIORITY b
  if aPrio = -1 ∧ bPrio = -1 then localeCompare a b
  else if aPrio = -1 then 1
  else if bPrio = -1 then -1
  else aPrio - bPrio

/-- The non-strict order induced by the sort comparator. -/
def CodeOrder (a b : String) : Prop :=
  codeCompare a b ≤ 0

instance : DecidableRel CodeOrder :=
  fun a b => inferInstanceAs (Decidable (codeCompare a b ≤ 0))

/-- `selectFilesForAnalysis` from `githubService`: exact-path structural
matches, `isCodeFile` matches sorted by the comparator and truncated to 5.
`Array.prototype.sort` (stable since ES2019) is modelled as insertion sort
over `CodeOrder`. -/
def selectFilesForAnalysis (fileList : List FileMeta) : Selection :=
  let structural :=
    (fileList.filter (fun f => STRUCTURAL_FILE_PATTERNS.contains f.path)).map
      (fun f => f.path)
  let code :=
    (fileList.filter (fun f => isCodeFile f.path)).map (fun f => f.path)
  let sorted := List.insertionSort CodeOrder code
  { structural := structural, code := sorted.take 5 }

-- ### Repository fetcher (`githubService`)

/-- The result of the WHATWG `new URL(url)` constructor: the two fields
`parseRepoUrl` inspects.  A string on which the constructor throws is
modelled as `none` at the call sites. -/
structure URLObject where
  hostname : String
  pathname : String
deriving DecidableEq, Repr

/-- The message thrown by the `catch` block of `parseRepoUrl`. -/
def invalidUrlMessage : String :=
  "Invalid GitHub repository URL. Please provide a URL like \x27https://github.com/owner/repo\x27."

/-- `parseRepoUrl` from `githubService`: the `catch` block maps the URL
constructor throwing (`none`), a non-`github.com` hostname, and fewer than two
non-empty path segments all to the one user-facing message. -/
def parseRepoUrl (url : Option URLObject) : Except String (String × String) :=
  match url with
  | none => .error invalidUrlMessage
  | some urlObject =>
    if urlObject.hostname != "github.com" then .error invalidUrlMessage
    else
      match (jsSplitSlash urlObject.pathname).filter (fun p => p != "") with
      | p0 :: p1 :: _ => .ok (p0, p1)
      | _ => .error invalidUrlMessage

/-- An HTTP response as the sources read it: the `ok` flag, the status code,
and the payload already decoded to the one field the caller uses. -/
structure HttpResponse (α : Type) where
  ok : Bool
  status : Nat
  payload : α

/-- A node of the recursive git tree (`{ path, type }`). -/
structure GitNode where
  path : String
  type : String
deriving DecidableEq, Repr

/-- What the GitHub endpoints would answer during one run: repository
metadata (payload: `default_branch`), branch metadata (payload: tip commit
sha), the recursive tree (payload: nodes and the `truncated` flag), and raw
content by path. -/
structure GitHubEnv where
  repoMeta : HttpResponse String
  branchMeta : HttpResponse String
  tree : HttpResponse (List GitNode × Bool)
  raw : String → HttpResponse String

/-- The `stage` field of `AnalysisStatus` (`components/AnalysisProgress`). -/
inductive Stage where
  | INITIALIZING
  | FETCHING
  | SUMMARIZING
  | REVIEWING
  | SYNTHESIZING
deriving DecidableEq, Repr

/-- Observable steps of a run: progress callbacks (an `AnalysisStatus`
value), the four kinds of GitHub request, and generation-API calls. -/
inductive Event where
  | progress (stage : Stage) (message : String) (current total : Nat)
  | netRepoMeta
  | netBranchMeta
  | netTree
  | netRaw (path : String)
  | genCall (prompt : String)
deriving DecidableEq, Repr

/-- Network events: the GitHub requests of the Fetcher. -/
def isNetworkEvent : Event → Bool
  | .netRepoMeta => true
  | .netBranchMeta => true
  | .netTree => true
  | .netRaw _ => true
  | _ => false

/-- Events belonging to pipeline stages after FETCHING: any generation-API
call, or a progress callback for SUMMARIZING / REVIEWING / SYNTHESIZING. -/
def isPostFetchEvent : Event → Bool
  | .genCall _ => true
  | .progress .SUMMARIZING _ _ _ => true
  | .progress .REVIEWING _ _ _ => true
  | .progress .SYNTHESIZING _ _ _ => true
  | _ => false

/-- Error message of `getRepoDefaultBranch` for a non-ok response. -/
def repoMetaFailMessage (status : Nat) : String :=
  "Could not fetch repository data. Status: " ++ toString status

/-- `getRepoDefaultBranch` from `githubService`, with its one request
logged. -/
def getRepoDefaultBranch (env : GitHubEnv) : List Event × Except String String :=
  ([.netRepoMeta],
    if !env.repoMeta.ok then .error (repoMetaFailMessage env.repoMeta.status)
    else .ok env.repoMeta.payload)

/-- The blob-node filter and path projection of `getRepoFileTree`
(`treeData.tree.filter(node => node.type === 'blob').map(...)`). -/
def treeFilesOf (env : GitHubEnv) : List FileMeta :=
  (env.tree.payload.1.filter (fun node => node.type == "blob")).map
    (fun node => FileMeta.mk node.path)

/-- `getRepoFileTree` from `githubService`: the branch request, then the
recursive-tree request; a truncated tree only logs a console warning, which
the model drops; only blob nodes are kept (`treeFilesOf`). -/
def getRepoFileTree (env : GitHubEnv) : List Event × Except String (List FileMeta) :=
  if !env.branchMeta.ok then
    ([.netBranchMeta], .error "Could not fetch branch details.")
  else if !env.tree.ok then
    ([.netBranchMeta, .netTree], .error "Could not fetch repository file tree.")
  else
    ([.netBranchMeta, .netTree], .ok (treeFilesOf env))

/-- The `Promise.all` over the per-path fetches: positional results, failing
with the first (in list position) failed path.  (`Promise.all` fulfils with
positionally ordered results; which rejection wins on multiple failures is
completion-order dependent and immaterial to the claims.) -/
def fetchAll (env : GitHubEnv) : List String → Except String (List CodeFile)
  | [] => .ok []
  | path :: rest =>
    if !(env.raw path).ok then .error ("Failed to fetch " ++ path)
    else
      match fetchAll env rest with
      | .error m => .error m
      | .ok others => .ok (CodeFile.mk path (env.raw path).payload :: others)

/-- Message of the `filesToFetch.length === 0` throw. -/
def noRelevantFilesMessage : String :=
  "Could not find any relevant files to analyze in this repository."

/-- `startRepositoryAnalysis` from `githubService`.  The trace records
progress callbacks and requests in program order; each raw-content request
is logged when its promise is created (the `map` over `filesToFetch` runs
each async callback up to its first `await`), which is before the
`Fetching N files...` progress update. -/
def startRepositoryAnalysis (env : GitHubEnv) (url : Option URLObject) :
    List Event × Except String RepoAnalysisData :=
  let e0 := [Event.progress .INITIALIZING "Parsing repository URL..." 0 0]
  match parseRepoUrl url with
  | .error m => (e0, .error m)
  | .ok _ownerRepo =>
    let e1 := e0 ++ [Event.progress .FETCHING "Getting default branch..." 0 0]
    match getRepoDefaultBranch env with
    | (ebr, .error m) => (e1 ++ ebr, .error m)
    | (ebr, .ok _branch) =>
      let e2 := e1 ++ ebr ++ [Event.progress .FETCHING "Fetching file list..." 0 0]
      match getRepoFileTree env with
      | (etr, .error m) => (e2 ++ etr, .error m)
      | (etr, .ok fileTree) =>
        let sel := selectFilesForAnalysis fileTree
        let filesToFetch := sel.structural ++ sel.code
        if filesToFetch.length = 0 then
          (e2 ++ etr, .error noRelevantFilesMessage)
        else
          let eraw := filesToFetch.map Event.netRaw
          let e3 := e2 ++ etr ++ eraw ++
            [Event.progress .FETCHING
              ("Fetching " ++ toString filesToFetch.length ++ " files...") 0 0]
          match fetchAll env filesToFetch with
          | .error m => (e3, .error m)
          | .ok allFiles =>
            (e3, .ok
              { structuralFiles :=
                  allFiles.filter (fun f => sel.structural.contains f.path),
                codeFiles :=
                  allFiles.filter (fun f => sel.code.contains f.path) })

-- ### Generation service (`geminiService`)

/-- The generation backend: what `ai.models.generateContent` would answer for
a given prompt (`.error` models the SDK call throwing, carrying the thrown
message). -/
structure GenEnv where
  generate : String → Except String String

/-- `callGeminiWithRetry` from `geminiService`: one generation call, logged;
a thrown error is wrapped with the `Gemini API Error: ` lead. -/
def callGeminiWithRetry (env : GenEnv) (prompt : String) :
    List Event × Except String String :=
  ([.genCall prompt],
    match env.generate prompt with
    | .ok text => .ok text
    | .error m => .error ("Gemini API Error: " ++ m))

/-- `ARCHITECTURE_PROMPT_TEMPLATE` from `geminiService`. -/
def ARCHITECTURE_PROMPT_TEMPLATE : String :=
  "\nYou are a principal software architect. Based on the file contents of these configuration and package management files, provide a concise summary of the project\x27s architecture.\nIdentify the primary language, framework, key libraries, and their roles. Describe the likely purpose and structure of the application.\nThe summary should be dense and technical, intended for another engineer. Do not offer suggestions, only analyze.\nFormat the output as clean markdown.\n\nFiles:\n\x7b\x7bFILES_CONTENT\x7d\x7d\n"

/-- The fixed sentence returned when no structural files were selected. -/
def noStructuralFilesPlaceholder : String :=
  "No structural files (like package.json) were found to determine the project\x27s architecture."

/-- The `--- File: path ---` concatenation used for structural-file and
repository-file contents. -/
def joinFilesContent (files : List CodeFile) : String :=
  String.intercalate "\n\n"
    (files.map (fun file => "--- File: " ++ file.path ++ " ---\n" ++ file.content))

/-- The prompt `generateArchitecturalSummary` builds for a non-empty
structural-file list. -/
def architecturePrompt (structuralFiles : List CodeFile) : String :=
  jsReplace ARCHITECTURE_PROMPT_TEMPLATE "\x7b\x7bFILES_CONTENT\x7d\x7d"
    (joinFilesContent structuralFiles)

/-- `generateArchitecturalSummary` from `geminiService`. -/
def generateArchitecturalSummary (env : GenEnv) (structuralFiles : List CodeFile) :
    List Event × Except String String :=
  if structuralFiles.length = 0 then
    ([], .ok noStructuralFilesPlaceholder)
  else
    callGeminiWithRetry env (architecturePrompt structuralFiles)

/-- `FILE_REVIEW_PROMPT_TEMPLATE` from `geminiService`. -/
def FILE_REVIEW_PROMPT_TEMPLATE : String :=
  "\nAs a senior engineer, review the following code file. Your review must be informed by the project\x27s overall architecture, provided below for context.\nFocus on how this specific file adheres to or deviates from the architectural patterns, its specific role, and any potential integration issues.\nAlso cover standard code quality aspects like bugs, readability, and best practices.\nProvide your feedback in well-structured Markdown format. Use headings (e.g., \x27### Bugs and Errors\x27), bullet points (using \x27*\x27), and code blocks.\n\nArchitectural Context:\n---\n\x7b\x7bARCHITECTURAL_SUMMARY\x7d\x7d\n---\n\nCode File to Review (Path: \x7b\x7bFILE_PATH\x7d\x7d):\n\x60\x60\x60\n\x7b\x7bCODE\x7d\x7d\n\x60\x60\x60\n"

/-- The prompt `reviewFileWithContext` builds: the three successive
first-occurrence replacements of the source. -/
def reviewPrompt (file : CodeFile) (architecturalSummary : String) : String :=
  jsReplace
    (jsReplace
      (jsReplace FILE_REVIEW_PROMPT_TEMPLATE "\x7b\x7bARCHITECTURAL_SUMMARY\x7d\x7d"
        architecturalSummary)
      "\x7b\x7bFILE_PATH\x7d\x7d" file.path)
    "\x7b\x7bCODE\x7d\x7d" file.content

/-- `reviewFileWithContext` from `geminiService`. -/
def reviewFileWithContext (env : GenEnv) (file : CodeFile)
    (architecturalSummary : String) : List Event × Except String String :=
  callGeminiWithRetry env (reviewPrompt file architecturalSummary)

/-- `SYNTHESIS_PROMPT_TEMPLATE` from `geminiService`. -/
def SYNTHESIS_PROMPT_TEMPLATE : String :=
  "\nYou are a lead software engineer synthesizing multiple code reviews from your team into a single, cohesive report for the project lead.\nThe goal is to provide a high-level overview of the repository\x27s health, identify recurring patterns (both good and bad), and create a prioritized list of actionable recommendations for the entire repository.\nDo not just list the individual reviews. Instead, group related findings, identify systemic issues, and provide a holistic assessment.\nThe final output should be a well-structured, professional report in Markdown format. Start with an executive summary.\n\nHere are the individual file reviews to synthesize:\n---\n\x7b\x7bINDIVIDUAL_REVIEWS\x7d\x7d\n---\n"

/-- The prompt `synthesizeFinalReport` builds. -/
def synthesisPrompt (individualReviews : String) : String :=
  jsReplace SYNTHESIS_PROMPT_TEMPLATE "\x7b\x7bINDIVIDUAL_REVIEWS\x7d\x7d" individualReviews

/-- `synthesizeFinalReport` from `geminiService`. -/
def synthesizeFinalReport (env : GenEnv) (individualReviews : String) :
    List Event × Except String String :=
  callGeminiWithRetry env (synthesisPrompt individualReviews)

-- ### The analysis pipeline (`App.handleRepoAnalysis`)

/-- Message of the `repoData.codeFiles.length === 0` throw in the App. -/
def noReviewableMessage : String :=
  "Could not find any reviewable source code files in this repository."

/-- The per-file review loop of `handleRepoAnalysis`: for the file at
(0-based) index `i` it first issues the REVIEWING progress callback carrying
`(i+1, total)`, then awaits the review call; on success the tagged review is
collected. -/
def reviewLoop (env : GenEnv) (architecturalSummary : String) (total : Nat) :
    Nat → List CodeFile → List Event × Except String (List String)
  | _, [] => ([], .ok [])
  | i, file :: rest =>
    let e := [Event.progress .REVIEWING ("Reviewing " ++ file.path ++ "...")
      (i + 1) total]
    match reviewFileWithContext env file architecturalSummary with
    | (er, .error m) => (e ++ er, .error m)
    | (er, .ok fileReview) =>
      match reviewLoop env architecturalSummary total (i + 1) rest with
      | (es, .error m) => (e ++ er ++ es, .error m)
      | (es, .ok others) =>
        (e ++ er ++ es,
          .ok (("--- Review for " ++ file.path ++ " ---\n" ++ fileReview) :: others))

/-- `handleRepoAnalysis` from the App component: fetch, guard on zero code
files, architectural summary, sequential per-file reviews, synthesis.  The
result is the final report, or the `Analysis Failed: `-prefixed message the
catch block surfaces. -/
def handleRepoAnalysis (github : GitHubEnv) (gen : GenEnv) (url : Option URLObject) :
    List Event × Except String String :=
  match startRepositoryAnalysis github url with
  | (e1, .error m) => (e1, .error ("Analysis Failed: " ++ m))
  | (e1, .ok repoData) =>
    if repoData.codeFiles.length = 0 then
      (e1, .error ("Analysis Failed: " ++ noReviewableMessage))
    else
      let e2 := e1 ++ [Event.progress .SUMMARIZING
        "Generating architectural summary..." 0 0]
      match generateArchitecturalSummary gen repoData.structuralFiles with
      | (es, .error m) => (e2 ++ es, .error ("Analysis Failed: " ++ m))
      | (es, .ok architecturalSummary) =>
        match reviewLoop gen architecturalSummary repoData.codeFiles.length 0
            repoData.codeFiles with
        | (er, .error m) => (e2 ++ es ++ er, .error ("Analysis Failed: " ++ m))
        | (er, .ok individualReviews) =>
          let e3 := e2 ++ es ++ er ++ [Event.progress .SYNTHESIZING
            "Compiling final report..." 0 0]
          match synthesizeFinalReport gen
              (String.intercalate "\n\n" individualReviews) with
          | (ef, .error m) => (e3 ++ ef, .error ("Analysis Failed: " ++ m))
          | (ef, .ok finalReport) => (e3 ++ ef, .ok finalReport)

-- ### Deep-wiki chat (`geminiService.startOrContinueChat`)

/-- `ChatMessage` from `geminiService`; the `Part` array is modelled as its
text segments. -/
structure ChatMessage where
  role : String
  parts : List String
deriving DecidableEq, Repr

/-- What one `startOrContinueChat` turn hands to the SDK: the system
instruction, the prior-turn history given to `ai.chats.create`, and the
parts passed to `chat.sendMessage`. -/
structure ChatCall where
  systemInstruction : String
  history : List ChatMessage
  message : List String
deriving DecidableEq, Repr

/-- `CHAT_SYSTEM_PROMPT` from `geminiService`. -/
def CHAT_SYSTEM_PROMPT : String :=
  "\nYou are \"DeepWiki\", a conversational AI assistant for codebases.\nYou have been provided with comprehensive context about a GitHub repository, including:\n1. An architectural summary.\n2. The contents of key files.\n3. A full code review report.\n4. Mermaid.js diagrams illustrating the architecture, dependencies, and flows.\n\nYour primary purpose is to answer user questions about the repository based on this context. Be helpful, accurate, and concise.\nWhen a question refers to a diagram, reference it by name (e.g., \"In the Architecture Diagram...\").\nDo not go outside the provided context. If a question cannot be answered with the given information, say so politely.\n\nFull Repository Context:\n---\nArchitectural Summary:\n\x7b\x7bARCHITECTURAL_SUMMARY\x7d\x7d\n\nVisual Documentation (Mermaid Syntax):\n\x7b\x7bVISUAL_DOCS\x7d\x7d\n\nRepository Files:\n\x7b\x7bFILES_CONTENT\x7d\x7d\n---\n"

/-- `startOrContinueChat` from `geminiService`.  `visualDocsString` stands
for `JSON.stringify(visualDocs, null, 2)` (the serialization itself is not
modelled).  `history.slice(0, -1)` is `take (length - 1)`;
`history[history.length - 1]` is the `get?` lookup, whose `undefined` result
for an empty history makes the subsequent `.parts` access throw — modelled
as `none`.  No message is sent in that case. -/
def startOrContinueChat (history : List ChatMessage) (repoData : RepoAnalysisData)
    (architecturalSummary : String) (visualDocsString : String) : Option ChatCall :=
  let allFiles := repoData.structuralFiles ++ repoData.codeFiles
  let filesContent := joinFilesContent allFiles
  let si0 := jsReplace CHAT_SYSTEM_PROMPT "\x7b\x7bARCHITECTURAL_SUMMARY\x7d\x7d"
    architecturalSummary
  let si1 := jsReplace si0 "\x7b\x7bVISUAL_DOCS\x7d\x7d" visualDocsString
  let systemInstruction := jsReplace si1 "\x7b\x7bFILES_CONTENT\x7d\x7d" filesContent
  match history.get? (history.length - 1) with
  | none => none
  | some lastMessage =>
    some { systemInstruction := systemInstruction,
           history := history.take (history.length - 1),
           message := lastMessage.parts }

-- ### Selector lemmas

/-- Membership in the structural list is exact full-path membership in the
allow-list, for paths of the input. -/
theorem mem_structural_select (fl : List FileMeta) (p : String) :
    p ∈ (selectFilesForAnalysis fl).structural ↔
      p ∈ fl.map FileMeta.path ∧ p ∈ STRUCTURAL_FILE_PATTERNS := by
  simp only [selectFilesForAnalysis, List.mem_map, List.mem_filter]
  constructor
  · rintro ⟨f, ⟨hf, hq⟩, rfl⟩
    exact ⟨⟨f, hf, rfl⟩, by simpa using hq⟩
  · rintro ⟨⟨f, hf, rfl⟩, hq⟩
    exact ⟨f, ⟨hf, by simpa using hq⟩, rfl⟩

/-- Every member of the returned code list is an `isCodeFile` path of the
input. -/
theorem mem_code_select (fl : List FileMeta) (p : String)
    (h : p ∈ (selectFilesForAnalysis fl).code) :
    isCodeFile p = true ∧ p ∈ fl.map FileMeta.path := by
  simp only [selectFilesForAnalysis] at h
  have h2 := List.mem_of_mem_take h
  have h3 := (List.perm_insertionSort CodeOrder _).mem_iff.mp h2
  simp only [List.mem_map, List.mem_filter] at h3
  obtain ⟨f, ⟨hf, hq⟩, rfl⟩ := h3
  exact ⟨hq, List.mem_map.mpr ⟨f, hf, rfl⟩⟩

/-- The only structural allow-list entries that also pass `isCodeFile` are
the two config files with source-code extensions. -/
theorem structural_patterns_code_overlap :
    ∀ p ∈ STRUCTURAL_FILE_PATTERNS, isCodeFile p = true →
      p = "vite.config.ts" ∨ p = "webpack.config.js" := by decide

/-- C1 counterexample: on the input `["vite.config.ts"]` the selector puts
the same path in both the structural list and the code list — the two
returned lists are not disjoint. -/
theorem structural_code_overlap_viteconfig :
    "vite.config.ts" ∈ (selectFilesForAnalysis [⟨"vite.config.ts"⟩]).structural ∧
    "vite.config.ts" ∈ (selectFilesForAnalysis [⟨"vite.config.ts"⟩]).code := by
  decide

/-- C1 (amended): the two lists returned by `selectFilesForAnalysis` are
disjoint for every input path list that contains neither `vite.config.ts`
nor `webpack.config.js` — the only two allow-list manifests that also
qualify as code files. -/
theorem selector_disjoint_without_config_sources (fl : List FileMeta)
    (hv : "vite.config.ts" ∉ fl.map FileMeta.path)
    (hw : "webpack.config.js" ∉ fl.map FileMeta.path) :
    (selectFilesForAnalysis fl).structural.all
      (fun p => !((selectFilesForAnalysis fl).code.contains p)) = true := by
  rw [List.all_eq_true]
  intro p hp
  have hs := (mem_structural_select fl p).mp hp
  by_contra hne
  have hc : p ∈ (selectFilesForAnalysis fl).code := by
    have : (selectFilesForAnalysis fl).code.contains p = true := by
      revert hne
      cases (selectFilesForAnalysis fl).code.contains p <;> simp
    exact List.elem_iff.mp this
  have hcode := mem_code_select fl p hc
  rcases structural_patterns_code_overlap p hs.2 hcode.1 with h | h
  · exact hv (h ▸ hs.1)
  · exact hw (h ▸ hs.1)

/-- Witness for the amended C1 at a concrete input free of the two
overlapping manifest names. -/
theorem selector_disjoint_without_config_sources_witness :
    (selectFilesForAnalysis [⟨"package.json"⟩, ⟨"src/App.tsx"⟩]).structural.all
      (fun p =>
        !((selectFilesForAnalysis [⟨"package.json"⟩, ⟨"src/App.tsx"⟩]).code.contains p)) =
      true :=
  selector_disjoint_without_config_sources _ (by decide) (by decide)

/-- C2 counterexample: `backend/package.json` has its final segment
`package.json` in the allow-list, yet the selector does not classify it as
structural — matching is on the full relative path only. -/
theorem nested_manifest_not_structural :
    "backend/package.json" ∉
      (selectFilesForAnalysis [⟨"backend/package.json"⟩]).structural ∧
    "package.json" ∈ STRUCTURAL_FILE_PATTERNS := by decide

/-- C2 (amended): a path is classified structural by the File Selector if
and only if its full relative path is an exact member of the allow-list of
manifest filenames (final-segment matches such as `backend/package.json` do
not qualify). -/
theorem structural_iff_full_path_match (fl : List FileMeta) (p : String) :
    p ∈ (selectFilesForAnalysis fl).structural ↔
      p ∈ fl.map FileMeta.path ∧ p ∈ STRUCTURAL_FILE_PATTERNS :=
  mem_structural_select fl p

/-- C5: the selector returns at most 5 code paths — the first 5 after
ranking — while the structural list is never truncated: every input path
that matches the allow-list appears in it. -/
theorem code_truncated_structural_complete (fl : List FileMeta) :
    (selectFilesForAnalysis fl).code.length ≤ 5 ∧
    ∀ p, p ∈ fl.map FileMeta.path → p ∈ STRUCTURAL_FILE_PATTERNS →
      p ∈ (selectFilesForAnalysis fl).structural := by
  constructor
  · simp only [selectFilesForAnalysis]
    simp [List.length_take]
  · intro p hm hq
    exact (mem_structural_select fl p).mpr ⟨hm, hq⟩

/-- Witness for C5: the length bound and a concrete structural path on an
input with six code files and one manifest. -/
theorem code_truncated_structural_complete_witness :
    (selectFilesForAnalysis
      [⟨"package.json"⟩, ⟨"a.ts"⟩, ⟨"b.ts"⟩, ⟨"c.ts"⟩, ⟨"d.ts"⟩, ⟨"e.ts"⟩,
       ⟨"f.ts"⟩]).code.length ≤ 5 ∧
    "package.json" ∈
      (selectFilesForAnalysis
        [⟨"package.json"⟩, ⟨"a.ts"⟩, ⟨"b.ts"⟩, ⟨"c.ts"⟩, ⟨"d.ts"⟩, ⟨"e.ts"⟩,
         ⟨"f.ts"⟩]).structural :=
  ⟨(code_truncated_structural_complete _).1,
    (code_truncated_structural_complete _).2 "package.json" (by decide) (by decide)⟩

-- ### Comparator lemmas and the ranking claim

/-- `lexCmp` is antisymmetric under argument swap. -/
theorem lexCmp_swap (a : List Char) : ∀ b, lexCmp b a = -lexCmp a b := by
  induction a with
  | nil => intro b; cases b <;> simp [lexCmp]
  | cons x xs ih =>
    intro b
    cases b with
    | nil => simp [lexCmp]
    | cons y ys =>
      simp only [lexCmp]
      split_ifs <;> first | exact ih ys | omega

/-- `lexCmp [] c` is never positive. -/
theorem lexCmp_nil_le (c : List Char) : lexCmp [] c ≤ 0 := by
  cases c <;> simp [lexCmp]

/-- Transitivity of the non-strict order induced by `lexCmp`. -/
theorem lexCmp_trans_le (a : List Char) :
    ∀ b c, lexCmp a b ≤ 0 → lexCmp b c ≤ 0 → lexCmp a c ≤ 0 := by
  induction a with
  | nil => intro b c _ _; exact lexCmp_nil_le c
  | cons x xs ih =>
    intro b c hab hbc
    cases b with
    | nil => simp [lexCmp] at hab
    | cons y ys =>
      cases c with
      | nil => simp [lexCmp] at hbc
      | cons z zs =>
        simp only [lexCmp] at hab hbc ⊢
        split_ifs at hab hbc ⊢ <;>
          first | omega | exact ih ys zs hab hbc

/-- `jsIndexOfAux` never returns a value below `-1`. -/
theorem jsIndexOfAux_ge (s : String) : ∀ l, -1 ≤ jsIndexOfAux s l := by
  intro l
  induction l with
  | nil => simp [jsIndexOfAux]
  | cons x xs ih =>
    simp only [jsIndexOfAux]
    split_ifs <;> omega

/-- `indexOf` returns `-1` exactly for absent elements. -/
theorem jsIndexOf_eq_neg_one_iff (l : List String) (s : String) :
    jsIndexOf l s = -1 ↔ s ∉ l := by
  unfold jsIndexOf
  induction l with
  | nil => simp [jsIndexOfAux]
  | cons x xs ih =>
    simp only [jsIndexOfAux]
    by_cases h : x = s
    · subst h
      simp
    · rw [if_neg h]
      by_cases h2 : jsIndexOfAux s xs = -1
      · rw [if_pos h2]
        simp only [List.mem_cons, not_or, eq_self_iff_true, true_iff]
        exact ⟨fun hs => h hs.symm, ih.mp h2⟩
      · rw [if_neg h2]
        have hge := jsIndexOfAux_ge s xs
        constructor
        · intro hcon; omega
        · intro hmem
          exfalso
          apply hmem
          right
          by_contra hnm
          exact h2 (ih.mpr hnm)

/-- The comparator's order is total. -/
instance : IsTotal String CodeOrder where
  total a b := by
    unfold CodeOrder codeCompare
    have hsw := lexCmp_swap a.data b.data
    by_cases ha : jsIndexOf CODE_FILE_PRIORITY a = -1 <;>
      by_cases hb : jsIndexOf CODE_FILE_PRIORITY b = -1 <;>
        simp only [ha, hb, localeCompare, if_true, if_false, and_true,
          and_false, true_and, false_and, if_neg, not_false_iff] <;>
        omega

/-- The comparator's order is transitive. -/
instance : IsTrans String CodeOrder where
  trans a b c hab hbc := by
    unfold CodeOrder codeCompare at hab hbc ⊢
    have htr := lexCmp_trans_le a.data b.data c.data
    by_cases ha : jsIndexOf CODE_FILE_PRIORITY a = -1 <;>
      by_cases hb : jsIndexOf CODE_FILE_PRIORITY b = -1 <;>
        by_cases hc : jsIndexOf CODE_FILE_PRIORITY c = -1 <;>
          simp only [ha, hb, hc, localeCompare] at hab hbc ⊢ <;>
          split_ifs at hab hbc ⊢ <;>
          first
            | omega
            | exact htr hab hbc
            | simp_all

/-- What one comparator fact `CodeOrder a b` says about the two paths:
priority membership propagates right to left, priority indices are
non-decreasing, and non-priority pairs are in `localeCompare` order. -/
theorem codeOrder_imp (a b : String) (h : CodeOrder a b) :
    (b ∈ CODE_FILE_PRIORITY → a ∈ CODE_FILE_PRIORITY) ∧
    (a ∈ CODE_FILE_PRIORITY → b ∈ CODE_FILE_PRIORITY →
      jsIndexOf CODE_FILE_PRIORITY a ≤ jsIndexOf CODE_FILE_PRIORITY b) ∧
    (a ∉ CODE_FILE_PRIORITY → localeCompare a b ≤ 0) := by
  unfold CodeOrder codeCompare at h
  by_cases ha : jsIndexOf CODE_FILE_PRIORITY a = -1 <;>
    by_cases hb : jsIndexOf CODE_FILE_PRIORITY b = -1 <;>
      simp only [ha, hb] at h
  · refine ⟨fun hbP => ?_, fun haP => ?_, fun _ => ?_⟩
    · exact absurd hbP ((jsIndexOf_eq_neg_one_iff _ b).mp hb)
    · exact absurd haP ((jsIndexOf_eq_neg_one_iff _ a).mp ha)
    · simpa using h
  · simp at h
  · refine ⟨fun hbP => ?_, fun _ hbP => ?_, fun hnp => ?_⟩
    · exact absurd hbP ((jsIndexOf_eq_neg_one_iff _ b).mp hb)
    · exact absurd hbP ((jsIndexOf_eq_neg_one_iff _ b).mp hb)
    · exact absurd ((jsIndexOf_eq_neg_one_iff _ a).mpr hnp) ha
  · refine ⟨fun _ => ?_, fun _ _ => ?_, fun hnp => ?_⟩
    · by_contra hna
      exact ha ((jsIndexOf_eq_neg_one_iff _ a).mpr hna)
    · simp at h; omega
    · exact absurd ((jsIndexOf_eq_neg_one_iff _ a).mpr hnp) ha

/-- C4: in the returned code list, every priority-list path precedes every
non-priority path, priority paths appear in non-decreasing priority-index
order (the list's declared order), and non-priority paths are in
`localeCompare` (alphabetical) order. -/
theorem code_list_priority_then_alphabetical (fl : List FileMeta) :
    (selectFilesForAnalysis fl).code.Pairwise (fun a b =>
      (b ∈ CODE_FILE_PRIORITY → a ∈ CODE_FILE_PRIORITY) ∧
      (a ∈ CODE_FILE_PRIORITY → b ∈ CODE_FILE_PRIORITY →
        jsIndexOf CODE_FILE_PRIORITY a ≤ jsIndexOf CODE_FILE_PRIORITY b) ∧
      (a ∉ CODE_FILE_PRIORITY → localeCompare a b ≤ 0)) := by
  have hs := List.sorted_insertionSort CodeOrder
    ((fl.filter (fun f => isCodeFile f.path)).map (fun f => f.path))
  have ht : (selectFilesForAnalysis fl).code.Pairwise CodeOrder := by
    simp only [selectFilesForAnalysis]
    exact List.Pairwise.sublist (List.take_sublist 5 _) hs
  exact ht.imp (fun h => codeOrder_imp _ _ h)

-- ### Architectural-summary short-circuit and the chat helper

/-- C6: with an empty structural-file list, `generateArchitecturalSummary`
returns the fixed placeholder sentence with no generation-API call; with a
non-empty list it performs exactly one generation call, its prompt being the
architecture template with the concatenated file contents substituted in. -/
theorem architectural_summary_short_circuit (env : GenEnv)
    (structuralFiles : List CodeFile) :
    (structuralFiles = [] →
      generateArchitecturalSummary env structuralFiles =
        ([], Except.ok noStructuralFilesPlaceholder)) ∧
    (structuralFiles ≠ [] →
      (generateArchitecturalSummary env structuralFiles).1 =
        [Event.genCall (architecturePrompt structuralFiles)]) := by
  constructor
  · intro h
    subst h
    rfl
  · intro h
    simp [generateArchitecturalSummary, callGeminiWithRetry,
      List.length_eq_zero, h]

/-- Witness for C6: both branches at concrete inputs. -/
theorem architectural_summary_short_circuit_witness :
    generateArchitecturalSummary ⟨fun _ => Except.ok "text"⟩ [] =
      ([], Except.ok noStructuralFilesPlaceholder) ∧
    (generateArchitecturalSummary ⟨fun _ => Except.ok "text"⟩
        [⟨"package.json", "contents"⟩]).1 =
      [Event.genCall (architecturePrompt [⟨"package.json", "contents"⟩])] :=
  ⟨(architectural_summary_short_circuit ⟨fun _ => Except.ok "text"⟩ []).1 rfl,
   (architectural_summary_short_circuit ⟨fun _ => Except.ok "text"⟩
      [⟨"package.json", "contents"⟩]).2 (by simp)⟩

/-- C10: for every non-empty history, `startOrContinueChat` sends the final
element's parts as the message and passes exactly the preceding elements, in
order, as the prior-turn chat history; for the empty history the
`history[history.length - 1]` access yields no element and the function
fails (no defined error value, no message sent). -/
theorem chat_requires_nonempty_history (history : List ChatMessage)
    (repoData : RepoAnalysisData) (architecturalSummary visualDocsString : String) :
    (∀ lastMessage, history.getLast? = some lastMessage →
      (startOrContinueChat history repoData architecturalSummary
          visualDocsString).map (fun c => (c.history, c.message)) =
        some (history.dropLast, lastMessage.parts)) ∧
    (history = [] →
      startOrContinueChat history repoData architecturalSummary
        visualDocsString = none) := by
  constructor
  · intro lastMessage hlast
    unfold startOrContinueChat
    rw [show history.get? (history.length - 1) = history.getLast? from
      (List.getLast?_eq_get? history).symm, hlast]
    simp [List.dropLast_eq_take]
  · intro h
    subst h
    rfl

/-- Witness for C10: a one-element history and the empty history. -/
theorem chat_requires_nonempty_history_witness :
    (startOrContinueChat [⟨"user", ["hi"]⟩] ⟨[], []⟩ "s" "v").map
        (fun c => (c.history, c.message)) = some ([], ["hi"]) ∧
    startOrContinueChat [] ⟨[], []⟩ "s" "v" = none :=
  ⟨by
    have h := (chat_requires_nonempty_history [⟨"user", ["hi"]⟩] ⟨[], []⟩
      "s" "v").1 ⟨"user", ["hi"]⟩ rfl
    simpa using h,
   (chat_requires_nonempty_history [] ⟨[], []⟩ "s" "v").2 rfl⟩

-- ### URL validation (C3)

/-- The URL shape of the claim: a parseable URL with host `github.com` and
at least two non-empty path segments. -/
def validRepoUrlShape (url : Option URLObject) : Bool :=
  match url with
  | none => false
  | some u =>
    (u.hostname == "github.com") &&
    decide (2 ≤ ((jsSplitSlash u.pathname).filter (fun p => p != "")).length)

/-- `parseRepoUrl` fails with the fixed message exactly off the valid shape,
and returns an owner/repo pair exactly on it. -/
theorem parseRepoUrl_spec (url : Option URLObject) :
    (validRepoUrlShape url = false →
      parseRepoUrl url = .error invalidUrlMessage) ∧
    (validRepoUrlShape url = true → ∃ pr, parseRepoUrl url = .ok pr) := by
  cases url with
  | none => simp [validRepoUrlShape, parseRepoUrl]
  | some u =>
    simp only [validRepoUrlShape, parseRepoUrl]
    by_cases hh : u.hostname == "github.com"
    · have hh2 : (u.hostname != "github.com") = false := by
        simp only [bne]; rw [hh]; rfl
      rw [hh2]
      simp only [Bool.true_and, hh, if_false, Bool.false_eq_true]
      cases hlist : (jsSplitSlash u.pathname).filter (fun p => p != "") with
      | nil => simp
      | cons p0 rest =>
        cases rest with
        | nil => simp
        | cons p1 rest2 => simp
    · have hh' : (u.hostname == "github.com") = false := by
        cases hcase : u.hostname == "github.com"
        · rfl
        · exact absurd hcase hh
      have hh2 : (u.hostname != "github.com") = true := by
        simp [bne, hh']
      rw [hh2]
      simp [hh']

/-- Strings with different first characters differ, whatever is appended to
the first. -/
theorem append_ne_of_head {c d : Char} {ls lt : List Char} {s t : String}
    (x : String) (hs : s.data = c :: ls) (ht : t.data = d :: lt)
    (hcd : c ≠ d) : s ++ x ≠ t := by
  intro h
  have h2 := congrArg String.data h
  rw [String.data_append, hs, ht, List.cons_append] at h2
  exact hcd (List.cons.injEq .. ▸ h2 |>.1)

/-- The repository-metadata failure message never equals the invalid-URL
message. -/
theorem repoMetaFailMessage_ne_invalid (status : Nat) :
    repoMetaFailMessage status ≠ invalidUrlMessage := by
  unfold repoMetaFailMessage
  exact append_ne_of_head _ rfl rfl (by decide)

/-- A raw-fetch failure message never equals the invalid-URL message. -/
theorem rawFailMessage_ne_invalid (p : String) :
    "Failed to fetch " ++ p ≠ invalidUrlMessage :=
  append_ne_of_head _ rfl rfl (by decide)

/-- Every error of the raw-content fan-out is a `Failed to fetch` message. -/
theorem fetchAll_error_shape (env : GitHubEnv) :
    ∀ l m, fetchAll env l = .error m → ∃ p, m = "Failed to fetch " ++ p := by
  intro l
  induction l with
  | nil => intro m h; simp [fetchAll] at h
  | cons p ps ih =>
    intro m h
    simp only [fetchAll] at h
    split_ifs at h with hok
    · exact ⟨p, (Except.error.injEq .. ▸ h).symm⟩
    · cases hrec : fetchAll env ps with
      | error m2 =>
        rw [hrec] at h
        exact (Except.error.injEq .. ▸ h) ▸ ih m2 hrec
      | ok os => rw [hrec] at h; simp at h

-- ### Run lemmas: `startRepositoryAnalysis` under each environment case

/-- The trace of the fetch phase up to and including the tree request. -/
def fetchPhaseTrace : List Event :=
  [Event.progress .INITIALIZING "Parsing repository URL..." 0 0,
   Event.progress .FETCHING "Getting default branch..." 0 0,
   Event.netRepoMeta,
   Event.progress .FETCHING "Fetching file list..." 0 0,
   Event.netBranchMeta, Event.netTree]

/-- The selection computed for the environment's tree. -/
def selOf (env : GitHubEnv) : Selection :=
  selectFilesForAnalysis (treeFilesOf env)

/-- `filesToFetch`: the structural paths followed by the code paths. -/
def filesToFetchOf (env : GitHubEnv) : List String :=
  (selOf env).structural ++ (selOf env).code

/-- The positional results of the raw-content fan-out when every fetch
succeeds. -/
def allFilesOf (env : GitHubEnv) : List CodeFile :=
  (filesToFetchOf env).map (fun p => ⟨p, (env.raw p).payload⟩)

/-- The full trace of a successful `startRepositoryAnalysis` run. -/
def startTraceOk (env : GitHubEnv) : List Event :=
  fetchPhaseTrace ++ ((filesToFetchOf env).map Event.netRaw ++
    [Event.progress .FETCHING
      ("Fetching " ++ toString (filesToFetchOf env).length ++ " files...") 0 0])

/-- A failed repository-metadata request fails the run with its status. -/
theorem startRepo_repoMeta_fail (env : GitHubEnv) (url : Option URLObject)
    (hvalid : validRepoUrlShape url = true) (hr : env.repoMeta.ok = false) :
    (startRepositoryAnalysis env url).2 =
      .error (repoMetaFailMessage env.repoMeta.status) := by
  obtain ⟨pr, hp⟩ := (parseRepoUrl_spec url).2 hvalid
  simp only [startRepositoryAnalysis, hp, getRepoDefaultBranch,
    getRepoFileTree, hr, Bool.not_false, if_true]

/-- A failed branch-metadata request fails the run with its fixed message. -/
theorem startRepo_branch_fail (env : GitHubEnv) (url : Option URLObject)
    (hvalid : validRepoUrlShape url = true) (hr : env.repoMeta.ok = true)
    (hb : env.branchMeta.ok = false) :
    (startRepositoryAnalysis env url).2 =
      .error "Could not fetch branch details." := by
  obtain ⟨pr, hp⟩ := (parseRepoUrl_spec url).2 hvalid
  simp only [startRepositoryAnalysis, hp, getRepoDefaultBranch,
    getRepoFileTree, hr, hb, Bool.not_false, Bool.not_true, if_true,
    Bool.false_eq_true, if_false]

/-- A failed tree request fails the run with its fixed message. -/
theorem startRepo_tree_fail (env : GitHubEnv) (url : Option URLObject)
    (hvalid : validRepoUrlShape url = true) (hr : env.repoMeta.ok = true)
    (hb : env.branchMeta.ok = true) (ht : env.tree.ok = false) :
    (startRepositoryAnalysis env url).2 =
      .error "Could not fetch repository file tree." := by
  obtain ⟨pr, hp⟩ := (parseRepoUrl_spec url).2 hvalid
  simp only [startRepositoryAnalysis, hp, getRepoDefaultBranch,
    getRepoFileTree, hr, hb, ht, Bool.not_false, Bool.not_true, if_true,
    Bool.false_eq_true, if_false]

/-- An empty combined selection stops the run with `noRelevantFilesMessage`,
right after the fetch-phase trace. -/
theorem startRepo_empty (env : GitHubEnv) (url : Option URLObject)
    (hvalid : validRepoUrlShape url = true) (hr : env.repoMeta.ok = true)
    (hb : env.branchMeta.ok = true) (ht : env.tree.ok = true)
    (hlen : (filesToFetchOf env).length = 0) :
    startRepositoryAnalysis env url =
      (fetchPhaseTrace, .error noRelevantFilesMessage) := by
  obtain ⟨pr, hp⟩ := (parseRepoUrl_spec url).2 hvalid
  simp only [startRepositoryAnalysis, hp, getRepoDefaultBranch,
    getRepoFileTree, hr, hb, ht, Bool.not_true, Bool.false_eq_true, if_false]
  split
  · rfl
  · next hc => exact absurd hlen hc

/-- With a non-empty selection, the run's outcome is decided by the raw
fan-out: a successful `fetchAll` yields the partitioned data and the full
trace. -/
theorem startRepo_fetch_ok (env : GitHubEnv) (url : Option URLObject)
    (hvalid : validRepoUrlShape url = true) (hr : env.repoMeta.ok = true)
    (hb : env.branchMeta.ok = true) (ht : env.tree.ok = true)
    (hlen : ¬(filesToFetchOf env).length = 0) (files : List CodeFile)
    (hfa : fetchAll env (filesToFetchOf env) = .ok files) :
    startRepositoryAnalysis env url =
      (startTraceOk env, .ok
        { structuralFiles :=
            files.filter (fun f => (selOf env).structural.contains f.path),
          codeFiles :=
            files.filter (fun f => (selOf env).code.contains f.path) }) := by
  obtain ⟨pr, hp⟩ := (parseRepoUrl_spec url).2 hvalid
  simp only [startRepositoryAnalysis, hp, getRepoDefaultBranch,
    getRepoFileTree, hr, hb, ht, Bool.not_true, Bool.false_eq_true, if_false]
  split
  · next hc => exact absurd hc hlen
  · rw [show fetchAll env ((selectFilesForAnalysis (treeFilesOf env)).structural ++
        (selectFilesForAnalysis (treeFilesOf env)).code) = Except.ok files from hfa]
    rfl

/-- A failed raw fetch fails the run with that fetch's message. -/
theorem startRepo_fetch_fail (env : GitHubEnv) (url : Option URLObject)
    (hvalid : validRepoUrlShape url = true) (hr : env.repoMeta.ok = true)
    (hb : env.branchMeta.ok = true) (ht : env.tree.ok = true)
    (hlen : ¬(filesToFetchOf env).length = 0) (m : String)
    (hfa : fetchAll env (filesToFetchOf env) = .error m) :
    (startRepositoryAnalysis env url).2 = .error m := by
  obtain ⟨pr, hp⟩ := (parseRepoUrl_spec url).2 hvalid
  simp only [startRepositoryAnalysis, hp, getRepoDefaultBranch,
    getRepoFileTree, hr, hb, ht, Bool.not_true, Bool.false_eq_true, if_false]
  split
  · next hc => exact absurd hc hlen
  · rw [show fetchAll env ((selectFilesForAnalysis (treeFilesOf env)).structural ++
        (selectFilesForAnalysis (treeFilesOf env)).code) = Except.error m from hfa]

/-- When every raw request succeeds, the fan-out returns the files in
positional order. -/
theorem fetchAll_ok (env : GitHubEnv) :
    ∀ l : List String, (∀ p ∈ l, (env.raw p).ok = true) →
      fetchAll env l = .ok (l.map (fun p => ⟨p, (env.raw p).payload⟩)) := by
  intro l
  induction l with
  | nil => intro _; rfl
  | cons p ps ih =>
    intro h
    simp only [fetchAll, h p (List.mem_cons_self ..), Bool.not_true,
      Bool.false_eq_true, if_false, ih (fun q hq => h q (List.mem_cons_of_mem _ hq)),
      List.map_cons]

/-- C3: for every URL not of the `github.com/<owner>/<repo>` shape the
Fetcher rejects with the fixed invalid-URL message and its trace contains no
network request; for every URL of that shape any failure it reports is a
different message — it never raises the invalid-URL error. -/
theorem invalid_url_rejected_before_network (env : GitHubEnv)
    (url : Option URLObject) :
    (validRepoUrlShape url = false →
      (startRepositoryAnalysis env url).2 = .error invalidUrlMessage ∧
      (startRepositoryAnalysis env url).1.all
        (fun e => !isNetworkEvent e) = true) ∧
    (validRepoUrlShape url = true →
      ∀ m, (startRepositoryAnalysis env url).2 = .error m →
        m ≠ invalidUrlMessage) := by
  constructor
  · intro hbad
    have hp := (parseRepoUrl_spec url).1 hbad
    unfold startRepositoryAnalysis
    rw [hp]
    exact ⟨rfl, rfl⟩
  · intro hgood m h hcon
    subst hcon
    cases hr : env.repoMeta.ok with
    | false =>
      rw [startRepo_repoMeta_fail env url hgood hr] at h
      simp only [Except.error.injEq] at h
      exact repoMetaFailMessage_ne_invalid env.repoMeta.status h
    | true =>
      cases hb : env.branchMeta.ok with
      | false =>
        rw [startRepo_branch_fail env url hgood hr hb] at h
        simp only [Except.error.injEq] at h
        exact absurd h (by decide)
      | true =>
        cases htr : env.tree.ok with
        | false =>
          rw [startRepo_tree_fail env url hgood hr hb htr] at h
          simp only [Except.error.injEq] at h
          exact absurd h (by decide)
        | true =>
          by_cases hlen : (filesToFetchOf env).length = 0
          · have hD := startRepo_empty env url hgood hr hb htr hlen
            rw [show (startRepositoryAnalysis env url).2 =
                Except.error noRelevantFilesMessage from by rw [hD]] at h
            simp only [Except.error.injEq] at h
            exact absurd h (by decide)
          · cases hfa : fetchAll env (filesToFetchOf env) with
            | error m2 =>
              rw [startRepo_fetch_fail env url hgood hr hb htr hlen m2 hfa] at h
              simp only [Except.error.injEq] at h
              obtain ⟨p, hp2⟩ := fetchAll_error_shape env _ m2 hfa
              exact rawFailMessage_ne_invalid p (hp2.symm.trans h)
            | ok files =>
              rw [show (startRepositoryAnalysis env url).2 = Except.ok
                  { structuralFiles := files.filter
                      (fun f => (selOf env).structural.contains f.path),
                    codeFiles := files.filter
                      (fun f => (selOf env).code.contains f.path) } from by
                rw [startRepo_fetch_ok env url hgood hr hb htr hlen files hfa]] at h
              exact Except.noConfusion h

-- ### Concrete test environments (shared by the witnesses)

/-- A parsed valid repository URL. -/
def testUrl : Option URLObject := some ⟨"github.com", "/owner/repo"⟩

/-- A fully healthy environment with one manifest and one code file. -/
def testGitHubEnv : GitHubEnv :=
  { repoMeta := ⟨true, 200, "main"⟩,
    branchMeta := ⟨true, 200, "sha"⟩,
    tree := ⟨true, 200, ([⟨"package.json", "blob"⟩, ⟨"src/App.tsx", "blob"⟩], false)⟩,
    raw := fun p => ⟨true, 200, "content of " ++ p⟩ }

/-- A healthy environment whose repository tree is empty. -/
def testGitHubEnvNoFiles : GitHubEnv :=
  { repoMeta := ⟨true, 200, "main"⟩,
    branchMeta := ⟨true, 200, "sha"⟩,
    tree := ⟨true, 200, ([], false)⟩,
    raw := fun p => ⟨true, 200, "content of " ++ p⟩ }

/-- An environment whose repository-metadata request returns HTTP 404. -/
def testGitHubEnv404 : GitHubEnv :=
  { repoMeta := ⟨false, 404, ""⟩,
    branchMeta := ⟨true, 200, "sha"⟩,
    tree := ⟨true, 200, ([], false)⟩,
    raw := fun p => ⟨true, 200, "content of " ++ p⟩ }

/-- A generation backend that always answers `"text"`. -/
def testGenEnv : GenEnv := ⟨fun _ => Except.ok "text"⟩

/-- Witness for C3: the unparseable URL is rejected without network traffic,
and on a valid URL a failing metadata request yields the 404 message, not
the invalid-URL message. -/
theorem invalid_url_rejected_before_network_witness :
    ((startRepositoryAnalysis testGitHubEnv none).2 =
        Except.error invalidUrlMessage ∧
      (startRepositoryAnalysis testGitHubEnv none).1.all
        (fun e => !isNetworkEvent e) = true) ∧
    repoMetaFailMessage 404 ≠ invalidUrlMessage :=
  ⟨(invalid_url_rejected_before_network testGitHubEnv none).1 rfl,
   (invalid_url_rejected_before_network testGitHubEnv404 testUrl).2 (by decide)
     (repoMetaFailMessage 404) rfl⟩

-- ### Error-shape lemmas for the generation service

/-- Appending to a common first string is left-cancellable. -/
theorem string_append_left_cancel {s a b : String} (h : s ++ a = s ++ b) :
    a = b := by
  have h2 := congrArg String.data h
  rw [String.data_append, String.data_append] at h2
  exact String.ext (List.append_cancel_left h2)

/-- Every error of `callGeminiWithRetry` carries the `Gemini API Error: `
lead. -/
theorem callGemini_error_shape (env : GenEnv) (prompt m : String)
    (h : (callGeminiWithRetry env prompt).2 = .error m) :
    ∃ m2, m = "Gemini API Error: " ++ m2 := by
  simp only [callGeminiWithRetry] at h
  cases hg : env.generate prompt with
  | ok t => rw [hg] at h; simp at h
  | error m2 =>
    rw [hg] at h
    simp only [Except.error.injEq] at h
    exact ⟨m2, h.symm⟩

/-- Every error of `generateArchitecturalSummary` carries the Gemini lead. -/
theorem genArch_error_shape (env : GenEnv) (sf : List CodeFile) (m : String)
    (h : (generateArchitecturalSummary env sf).2 = .error m) :
    ∃ m2, m = "Gemini API Error: " ++ m2 := by
  unfold generateArchitecturalSummary at h
  split_ifs at h with hl
  exact callGemini_error_shape env _ m h

/-- Every error of the review loop carries the Gemini lead. -/
theorem reviewLoop_error_shape (env : GenEnv) (a : String) (total : Nat) :
    ∀ i files m, (reviewLoop env a total i files).2 = .error m →
      ∃ m2, m = "Gemini API Error: " ++ m2 := by
  intro i files
  induction files generalizing i with
  | nil => intro m h; simp [reviewLoop] at h
  | cons f fs ih =>
    intro m h
    simp only [reviewLoop] at h
    rcases hrv : reviewFileWithContext env f a with ⟨er, r⟩
    rw [hrv] at h
    cases r with
    | error m2 =>
      simp only [Except.error.injEq] at h
      exact h ▸ callGemini_error_shape env (reviewPrompt f a) m2
        (by simpa [reviewFileWithContext] using congrArg Prod.snd hrv)
    | ok fileReview =>
      rcases hrec : reviewLoop env a total (i + 1) fs with ⟨es, r2⟩
      rw [hrec] at h
      cases r2 with
      | error m3 =>
        simp only [Except.error.injEq] at h
        exact h ▸ ih (i + 1) m3 (by rw [hrec])
      | ok others => simp at h

-- ### Pipeline run lemmas

/-- Partitioning the fetched files by a path predicate is the same as
partitioning the selected paths first. -/
theorem allFiles_filter (env : GitHubEnv) (q : String → Bool) :
    (allFilesOf env).filter (fun f => q f.path) =
      ((filesToFetchOf env).filter q).map
        (fun p => ⟨p, (env.raw p).payload⟩) := by
  unfold allFilesOf
  rw [List.filter_map]
  rfl

/-- With no selected code paths, the fetched data has no code files. -/
theorem allFiles_filter_code_nil (env : GitHubEnv)
    (hc : (selOf env).code = []) :
    (allFilesOf env).filter
      (fun f => (selOf env).code.contains f.path) = [] := by
  apply List.filter_eq_nil_iff.mpr
  intro a _
  rw [hc]
  simp

/-- With at least one selected code path, the fetched data has a code
file. -/
theorem allFiles_filter_code_ne_nil (env : GitHubEnv)
    (hc : (selOf env).code ≠ []) :
    (allFilesOf env).filter
      (fun f => (selOf env).code.contains f.path) ≠ [] := by
  obtain ⟨c, rest, hcr⟩ := List.exists_cons_of_ne_nil hc
  apply List.ne_nil_of_mem (a := ⟨c, (env.raw c).payload⟩)
  rw [List.mem_filter]
  constructor
  · exact List.mem_map.mpr ⟨c,
      List.mem_append_right _ (by rw [hcr]; exact List.mem_cons_self ..), rfl⟩
  · rw [hcr]
    simp

/-- An empty combined selection aborts the pipeline with the
`no relevant files` message, before any post-fetch stage. -/
theorem handle_empty (github : GitHubEnv) (gen : GenEnv)
    (url : Option URLObject) (hvalid : validRepoUrlShape url = true)
    (hr : github.repoMeta.ok = true) (hb : github.branchMeta.ok = true)
    (ht : github.tree.ok = true)
    (hlen : (filesToFetchOf github).length = 0) :
    handleRepoAnalysis github gen url =
      (fetchPhaseTrace,
        .error ("Analysis Failed: " ++ noRelevantFilesMessage)) := by
  unfold handleRepoAnalysis
  rw [startRepo_empty github url hvalid hr hb ht hlen]

/-- A non-empty selection with no code paths aborts the pipeline with the
`no reviewable files` message, before any post-fetch stage. -/
theorem handle_noReviewable (github : GitHubEnv) (gen : GenEnv)
    (url : Option URLObject) (hvalid : validRepoUrlShape url = true)
    (hr : github.repoMeta.ok = true) (hb : github.branchMeta.ok = true)
    (ht : github.tree.ok = true) (hraw : ∀ p, (github.raw p).ok = true)
    (hlen : ¬(filesToFetchOf github).length = 0)
    (hc : (selOf github).code = []) :
    handleRepoAnalysis github gen url =
      (startTraceOk github,
        .error ("Analysis Failed: " ++ noReviewableMessage)) := by
  unfold handleRepoAnalysis
  rw [startRepo_fetch_ok github url hvalid hr hb ht hlen (allFilesOf github)
      (fetchAll_ok github _ (fun p _ => hraw p))]
  have hnil := allFiles_filter_code_nil github hc
  simp only [hnil, List.length_nil]
  rfl

/-- With code paths selected, every pipeline failure message carries the
`Analysis Failed: Gemini API Error: ` lead. -/
theorem handle_error_gen_shape (github : GitHubEnv) (gen : GenEnv)
    (url : Option URLObject) (hvalid : validRepoUrlShape url = true)
    (hr : github.repoMeta.ok = true) (hb : github.branchMeta.ok = true)
    (ht : github.tree.ok = true) (hraw : ∀ p, (github.raw p).ok = true)
    (hlen : ¬(filesToFetchOf github).length = 0)
    (hc : (selOf github).code ≠ []) :
    ∀ m, (handleRepoAnalysis github gen url).2 = .error m →
      ∃ m2, m = "Analysis Failed: " ++ ("Gemini API Error: " ++ m2) := by
  intro m h
  unfold handleRepoAnalysis at h
  rw [startRepo_fetch_ok github url hvalid hr hb ht hlen (allFilesOf github)
      (fetchAll_ok github _ (fun p _ => hraw p))] at h
  have hne : ¬(List.filter (fun f => (selOf github).code.contains f.path)
      (allFilesOf github)).length = 0 := by
    intro h0
    exact allFiles_filter_code_ne_nil github hc (List.length_eq_zero.mp h0)
  simp only [] at h
  rw [if_neg hne] at h
  split at h
  · next es m3 heq =>
    simp only [Except.error.injEq] at h
    obtain ⟨m2, hm2⟩ := genArch_error_shape gen _ m3 (by rw [heq])
    exact ⟨m2, by rw [← h, hm2]⟩
  · next es archSummary heq =>
    split at h
    · next er m3 heq2 =>
      simp only [Except.error.injEq] at h
      obtain ⟨m2, hm2⟩ := reviewLoop_error_shape gen archSummary _ 0 _ m3
        (by rw [heq2])
      exact ⟨m2, by rw [← h, hm2]⟩
    · next er reviews heq2 =>
      split at h
      · next ef m3 heq3 =>
        simp only [Except.error.injEq] at h
        obtain ⟨m2, hm2⟩ := callGemini_error_shape gen _ m3 (by
          have := congrArg Prod.snd heq3
          simpa [synthesizeFinalReport] using this)
        exact ⟨m2, by rw [← h, hm2]⟩
      · next ef finalReport heq3 =>
        simp at h

/-- The trace of a successful fetch contains no post-fetch event. -/
theorem startTraceOk_no_postfetch (env : GitHubEnv) :
    (startTraceOk env).all (fun e => !isPostFetchEvent e) = true := by
  rw [List.all_eq_true]
  intro e he
  unfold startTraceOk at he
  rcases List.mem_append.mp he with he | he
  · fin_cases he <;> rfl
  · rcases List.mem_append.mp he with he | he
    · obtain ⟨p, _, rfl⟩ := List.mem_map.mp he
      rfl
    · rw [List.mem_singleton] at he
      subst he
      rfl

/-- C7: under a healthy hosting environment, the pipeline ends in one of the
two `NoAnalyzableContent` messages exactly when the combined selected-path
list is empty or no code paths were selected; in that case its trace
contains no post-fetch (SUMMARIZING/REVIEWING/SYNTHESIZING or generation)
event — no later pipeline stage runs. -/
theorem no_analyzable_content_iff (github : GitHubEnv) (gen : GenEnv)
    (url : Option URLObject) (hvalid : validRepoUrlShape url = true)
    (hr : github.repoMeta.ok = true) (hb : github.branchMeta.ok = true)
    (ht : github.tree.ok = true) (hraw : ∀ p, (github.raw p).ok = true) :
    (((handleRepoAnalysis github gen url).2 =
        .error ("Analysis Failed: " ++ noRelevantFilesMessage) ∨
      (handleRepoAnalysis github gen url).2 =
        .error ("Analysis Failed: " ++ noReviewableMessage)) ↔
      (((selOf github).structural ++ (selOf github).code).length = 0 ∨
        (selOf github).code.length = 0)) ∧
    ((selOf github).code.length = 0 →
      (handleRepoAnalysis github gen url).1.all
        (fun e => !isPostFetchEvent e) = true) := by
  by_cases hlen : (filesToFetchOf github).length = 0
  · have hE := handle_empty github gen url hvalid hr hb ht hlen
    constructor
    · constructor
      · intro _
        exact Or.inl hlen
      · intro _
        left
        rw [hE]
    · intro _
      rw [hE]
      decide
  · by_cases hc : (selOf github).code = []
    · have hN := handle_noReviewable github gen url hvalid hr hb ht hraw hlen hc
      constructor
      · constructor
        · intro _
          right
          rw [hc]
          rfl
        · intro _
          right
          rw [hN]
      · intro _
        rw [hN]
        exact startTraceOk_no_postfetch github
    · have hshape := handle_error_gen_shape github gen url hvalid hr hb ht
        hraw hlen hc
      constructor
      · constructor
        · intro hL
          exfalso
          rcases hL with h | h
          · obtain ⟨m2, hm⟩ := hshape _ h
            exact append_ne_of_head m2 rfl rfl (by decide)
              (string_append_left_cancel hm).symm
          · obtain ⟨m2, hm⟩ := hshape _ h
            exact append_ne_of_head m2 rfl rfl (by decide)
              (string_append_left_cancel hm).symm
        · intro hR
          exfalso
          rcases hR with h0 | h0
          · exact hlen h0
          · exact hc (List.length_eq_zero.mp h0)
      · intro h0
        exact absurd (List.length_eq_zero.mp h0) hc

/-- Witness for C7 at an environment whose repository tree is empty: the
selection is empty, the run fails with the `no relevant files` message, and
no post-fetch event occurs. -/
theorem no_analyzable_content_iff_witness :
    (((handleRepoAnalysis testGitHubEnvNoFiles testGenEnv testUrl).2 =
        .error ("Analysis Failed: " ++ noRelevantFilesMessage) ∨
      (handleRepoAnalysis testGitHubEnvNoFiles testGenEnv testUrl).2 =
        .error ("Analysis Failed: " ++ noReviewableMessage)) ↔
      (((selOf testGitHubEnvNoFiles).structural ++
          (selOf testGitHubEnvNoFiles).code).length = 0 ∨
        (selOf testGitHubEnvNoFiles).code.length = 0)) ∧
    ((selOf testGitHubEnvNoFiles).code.length = 0 →
      (handleRepoAnalysis testGitHubEnvNoFiles testGenEnv testUrl).1.all
        (fun e => !isPostFetchEvent e) = true) :=
  no_analyzable_content_iff testGitHubEnvNoFiles testGenEnv testUrl
    (by decide) rfl rfl rfl (fun _ => rfl)

/-- C9: when the selected structural and code path sets are disjoint and the
fetches succeed, `startRepositoryAnalysis` returns exactly the selected
structural paths (tree-list order) and the selected code paths (ranked
order), each paired with its fetched content positionally — the partition
filters preserve the selector's order. -/
theorem fetch_partition_preserves_selection_order (github : GitHubEnv)
    (url : Option URLObject) (hvalid : validRepoUrlShape url = true)
    (hr : github.repoMeta.ok = true) (hb : github.branchMeta.ok = true)
    (ht : github.tree.ok = true) (hraw : ∀ p, (github.raw p).ok = true)
    (hne : ¬(filesToFetchOf github).length = 0)
    (hdisj : ∀ p ∈ (selOf github).structural, p ∉ (selOf github).code) :
    (startRepositoryAnalysis github url).2 = .ok
      { structuralFiles := (selOf github).structural.map
          (fun p => ⟨p, (github.raw p).payload⟩),
        codeFiles := (selOf github).code.map
          (fun p => ⟨p, (github.raw p).payload⟩) } := by
  rw [startRepo_fetch_ok github url hvalid hr hb ht hne (allFilesOf github)
      (fetchAll_ok github _ (fun p _ => hraw p))]
  have hstruct : (filesToFetchOf github).filter
      (fun p => (selOf github).structural.contains p) =
        (selOf github).structural := by
    unfold filesToFetchOf
    rw [List.filter_append]
    rw [List.filter_eq_self.mpr (fun p hp => List.elem_iff.mpr hp)]
    rw [List.filter_eq_nil_iff.mpr ?_, List.append_nil]
    intro p hp hcont
    exact hdisj p (List.elem_iff.mp hcont) hp
  have hcode : (filesToFetchOf github).filter
      (fun p => (selOf github).code.contains p) = (selOf github).code := by
    unfold filesToFetchOf
    rw [List.filter_append]
    rw [List.filter_eq_self.mpr (fun p hp => List.elem_iff.mpr hp)]
    rw [List.filter_eq_nil_iff.mpr ?_, List.nil_append]
    intro p hp hcont
    exact hdisj p hp (List.elem_iff.mp hcont)
  simp only [Except.ok.injEq]
  rw [allFiles_filter github (fun p => (selOf github).structural.contains p),
    allFiles_filter github (fun p => (selOf github).code.contains p),
    hstruct, hcode]

/-- Witness for C9 at the healthy test environment: one manifest and one
code file, disjoint selections. -/
theorem fetch_partition_preserves_selection_order_witness :
    (startRepositoryAnalysis testGitHubEnv testUrl).2 = .ok
      { structuralFiles := (selOf testGitHubEnv).structural.map
          (fun p => ⟨p, (testGitHubEnv.raw p).payload⟩),
        codeFiles := (selOf testGitHubEnv).code.map
          (fun p => ⟨p, (testGitHubEnv.raw p).payload⟩) } :=
  fetch_partition_preserves_selection_order testGitHubEnv testUrl
    (by decide) rfl rfl rfl (fun _ => rfl) (by decide) (by decide)

-- ### Review-loop timing (C8)

/-- The partitioned data of a fully successful fetch. -/
def repoDataOf (env : GitHubEnv) : RepoAnalysisData :=
  { structuralFiles := (allFilesOf env).filter
      (fun f => (selOf env).structural.contains f.path),
    codeFiles := (allFilesOf env).filter
      (fun f => (selOf env).code.contains f.path) }

/-- One review-loop run over a backend that answers `g`: for the file at
offset `j` the REVIEWING progress event with `(j+1, total)` is emitted
immediately before that file's generation call, file after file in list
order. -/
theorem reviewLoop_run (g : String → String) (archText : String)
    (total : Nat) :
    ∀ (i : Nat) (files : List CodeFile),
      reviewLoop ⟨fun p => Except.ok (g p)⟩ archText total i files =
        ((List.enumFrom i files).flatMap (fun pair =>
          [Event.progress .REVIEWING ("Reviewing " ++ pair.2.path ++ "...")
            (pair.1 + 1) total,
           Event.genCall (reviewPrompt pair.2 archText)]),
         Except.ok (files.map (fun f =>
           "--- Review for " ++ f.path ++ " ---\n" ++
             g (reviewPrompt f archText)))) := by
  intro i files
  induction files generalizing i with
  | nil => rfl
  | cons f fs ih =>
    simp only [reviewLoop, reviewFileWithContext, callGeminiWithRetry, ih,
      List.enumFrom, List.flatMap_cons, List.map_cons]
    rfl

/-- C8 (amended): under a healthy environment with at least one selected
code path and a generation backend answering `g`, the pipeline's trace is:
the fetch trace, the SUMMARIZING progress event, the architecture call
(absent when no structural files were fetched), then for each code file —
in selector order — the REVIEWING progress event carrying `(index+1,
total)` immediately FOLLOWED by that file's review call, and finally the
SYNTHESIZING progress event and the synthesis call.  Each file's progress
update is emitted before, not after, its review call returns. -/
theorem review_progress_before_each_call (github : GitHubEnv)
    (g : String → String) (url : Option URLObject)
    (hvalid : validRepoUrlShape url = true)
    (hr : github.repoMeta.ok = true) (hb : github.branchMeta.ok = true)
    (ht : github.tree.ok = true) (hraw : ∀ p, (github.raw p).ok = true)
    (hlen : ¬(filesToFetchOf github).length = 0)
    (hc : (selOf github).code ≠ []) :
    (handleRepoAnalysis github ⟨fun p => Except.ok (g p)⟩ url).1 =
      let archText :=
        if (repoDataOf github).structuralFiles.length = 0 then
          noStructuralFilesPlaceholder
        else g (architecturePrompt (repoDataOf github).structuralFiles)
      startTraceOk github ++
      [Event.progress .SUMMARIZING "Generating architectural summary..." 0 0] ++
      ((if (repoDataOf github).structuralFiles.length = 0 then []
        else [Event.genCall
          (architecturePrompt (repoDataOf github).structuralFiles)]) ++
       ((List.enumFrom 0 (repoDataOf github).codeFiles).flatMap (fun pair =>
          [Event.progress .REVIEWING ("Reviewing " ++ pair.2.path ++ "...")
            (pair.1 + 1) (repoDataOf github).codeFiles.length,
           Event.genCall (reviewPrompt pair.2 archText)]) ++
        [Event.progress .SYNTHESIZING "Compiling final report..." 0 0,
         Event.genCall (synthesisPrompt (String.intercalate "\n\n"
           ((repoDataOf github).codeFiles.map (fun f =>
             "--- Review for " ++ f.path ++ " ---\n" ++
               g (reviewPrompt f archText)))))])) := by
  unfold handleRepoAnalysis
  rw [startRepo_fetch_ok github url hvalid hr hb ht hlen (allFilesOf github)
      (fetchAll_ok github _ (fun p _ => hraw p))]
  have hne : ¬(List.filter (fun f => (selOf github).code.contains f.path)
      (allFilesOf github)).length = 0 := by
    intro h0
    exact allFiles_filter_code_ne_nil github hc (List.length_eq_zero.mp h0)
  simp only []
  rw [if_neg hne]
  rw [show (List.filter (fun f => (selOf github).structural.contains f.path)
        (allFilesOf github)) = (repoDataOf github).structuralFiles from rfl,
      show (List.filter (fun f => (selOf github).code.contains f.path)
        (allFilesOf github)) = (repoDataOf github).codeFiles from rfl]
  by_cases hs : (repoDataOf github).structuralFiles.length = 0
  · have hga : generateArchitecturalSummary ⟨fun p => Except.ok (g p)⟩
        (repoDataOf github).structuralFiles =
        ([], .ok noStructuralFilesPlaceholder) := by
      unfold generateArchitecturalSummary
      rw [if_pos hs]
    rw [hga]
    simp only []
    rw [reviewLoop_run g noStructuralFilesPlaceholder
      (repoDataOf github).codeFiles.length 0 (repoDataOf github).codeFiles]
    simp only [synthesizeFinalReport, callGeminiWithRetry]
    rw [if_pos hs, if_pos hs]
    simp [List.append_assoc]
  · have hga : generateArchitecturalSummary ⟨fun p => Except.ok (g p)⟩
        (repoDataOf github).structuralFiles =
        ([Event.genCall (architecturePrompt (repoDataOf github).structuralFiles)],
         .ok (g (architecturePrompt (repoDataOf github).structuralFiles))) := by
      unfold generateArchitecturalSummary callGeminiWithRetry
      rw [if_neg hs]
    rw [hga]
    simp only []
    rw [reviewLoop_run g
      (g (architecturePrompt (repoDataOf github).structuralFiles))
      (repoDataOf github).codeFiles.length 0 (repoDataOf github).codeFiles]
    simp only [synthesizeFinalReport, callGeminiWithRetry]
    rw [if_neg hs, if_neg hs]
    simp [List.append_assoc]

set_option maxRecDepth 10000 in
/-- C8 counterexample: in a concrete run with one code file, the REVIEWING
progress event carrying `(1, 1)` occurs strictly before that file's review
generation call in the trace — the update is not emitted after the call has
returned. -/
theorem review_progress_precedes_call :
    ((handleRepoAnalysis testGitHubEnv testGenEnv testUrl).1.indexOf
      (Event.progress .REVIEWING "Reviewing src/App.tsx..." 1 1) <
     (handleRepoAnalysis testGitHubEnv testGenEnv testUrl).1.indexOf
      (Event.genCall
        (reviewPrompt ⟨"src/App.tsx", "content of src/App.tsx"⟩ "text"))) ∧
    Event.genCall
      (reviewPrompt ⟨"src/App.tsx", "content of src/App.tsx"⟩ "text") ∈
      (handleRepoAnalysis testGitHubEnv testGenEnv testUrl).1 := by decide

/-- Witness for the amended C8 at the healthy test environment. -/
theorem review_progress_before_each_call_witness :
    (handleRepoAnalysis testGitHubEnv ⟨fun _ => Except.ok "text"⟩ testUrl).1 =
      (let archText :=
        if (repoDataOf testGitHubEnv).structuralFiles.length = 0 then
          noStructuralFilesPlaceholder
        else "text"
      startTraceOk testGitHubEnv ++
      [Event.progress .SUMMARIZING "Generating architectural summary..." 0 0] ++
      ((if (repoDataOf testGitHubEnv).structuralFiles.length = 0 then []
        else [Event.genCall
          (architecturePrompt (repoDataOf testGitHubEnv).structuralFiles)]) ++
       ((List.enumFrom 0 (repoDataOf testGitHubEnv).codeFiles).flatMap
          (fun pair =>
           [Event.progress .REVIEWING ("Reviewing " ++ pair.2.path ++ "...")
             (pair.1 + 1) (repoDataOf testGitHubEnv).codeFiles.length,
            Event.genCall (reviewPrompt pair.2 archText)]) ++
        [Event.progress .SYNTHESIZING "Compiling final report..." 0 0,
         Event.genCall (synthesisPrompt (String.intercalate "\n\n"
           ((repoDataOf testGitHubEnv).codeFiles.map (fun f =>
             "--- Review for " ++ f.path ++ " ---\n" ++ "text"))))]))) :=
  review_progress_before_each_call testGitHubEnv (fun _ => "text") testUrl
    (by decide) rfl rfl rfl (fun _ => rfl) (by decide) (by decide)

end GCR
